import Mathlib

/-!
Verification of the weighted survey-prevalence statistics of the
Smoking-Prevalence-Analysis-2018-2024 repository.

The repository's statistical core is embedded shallowly:

* `calculate_prevalence_ci` follows `appendix_table_2_updated.py`
  (weighted prevalence, Kish effective sample size, 95% CI);
* `calculate_metrics` follows `generate_smoking_prevalence_map_v9.py`
  (weighted prevalence, unweighted n, relative standard error);
* `summarizeGroup` follows the per-group body of `summarize` in
  `descriptives_final.py`.

Survey weights and indicator values are modelled as rationals (the scripts
compute with floats; rational arithmetic is the exact idealisation), square
roots take values in `ℝ`, and a pandas `NaN` result is modelled as `none`
of an `Option` type.  The formatted CI string is modelled by the inductive
`CIStr`, which records which of the three format branches the code takes
together with the numbers being formatted (decimal rendering itself is
presentation plumbing).
-/

/-- One survey row as consumed by the two per-group estimators:
`_LLCPWT` sampling weight and the `currentsmoker` 0/1 indicator. -/
structure Row where
  llcpwt : ℚ
  currentsmoker : ℚ
deriving DecidableEq

/-- `(group['_LLCPWT'] * group['currentsmoker']).sum()`. -/
def weightedSmokers (group : List Row) : ℚ :=
  (group.map (fun r => r.llcpwt * r.currentsmoker)).sum

/-- `group['_LLCPWT'].sum()`. -/
def totalWeight (group : List Row) : ℚ :=
  (group.map (fun r => r.llcpwt)).sum

/-- `(group['_LLCPWT']**2).sum()`. -/
def sumWeightsSq (group : List Row) : ℚ :=
  (group.map (fun r => r.llcpwt ^ 2)).sum

/-- Kish's effective sample size `(Σw)²/Σw²` with the code's guard: `0`
when the sum of squared weights is zero (`calculate_prevalence_ci`'s
spelling of the guard). -/
def kishNeff (group : List Row) : ℚ :=
  if sumWeightsSq group = 0 then 0 else totalWeight group ^ 2 / sumWeightsSq group

/-- The same effective sample size as spelled in `calculate_metrics`:
`(Σw)²/Σw²` if `Σw² > 0` else `0`. -/
def kishNeffPos (group : List Row) : ℚ :=
  if 0 < sumWeightsSq group then totalWeight group ^ 2 / sumWeightsSq group else 0

/-- `weighted_smokers / total_weight`, the weighted prevalence computed in
the non-degenerate branch of both estimators. -/
def prevalenceQ (group : List Row) : ℚ :=
  weightedSmokers group / totalWeight group

/-- The formatted `prevalence_ci_str`: which format branch the code takes,
with the numbers being rendered. -/
inductive CIStr where
  | na
  | pctNA (p : ℚ)
  | pctCI (p : ℚ) (lo hi : ℝ)

/-- The `pd.Series` returned by `calculate_prevalence_ci`. -/
structure PrevCI where
  prevalence : Option ℚ
  n_eff : ℚ
  ci_lower : Option ℝ
  ci_upper : Option ℝ
  prevalence_ci_str : CIStr

/-- `p_for_ci = max(0, min(1, prevalence))`. -/
def pForCI (group : List Row) : ℚ :=
  max 0 (min 1 (prevalenceQ group))

/-- `margin_of_error = 1.96 * sqrt((p_for_ci * (1 - p_for_ci)) / n_eff)`. -/
noncomputable def marginOfError (group : List Row) : ℝ :=
  1.96 * Real.sqrt (((pForCI group : ℝ) * (1 - (pForCI group : ℝ))) / (kishNeff group : ℝ))

/-- `ci_lower = max(0, prevalence - margin_of_error)`. -/
noncomputable def ciLowerOf (group : List Row) : ℝ :=
  max 0 ((prevalenceQ group : ℝ) - marginOfError group)

/-- `ci_upper = min(1, prevalence + margin_of_error)`. -/
noncomputable def ciUpperOf (group : List Row) : ℝ :=
  min 1 ((prevalenceQ group : ℝ) + marginOfError group)

/-- `calculate_prevalence_ci` of `appendix_table_2_updated.py`: weighted
prevalence, Kish `n_eff`, and the 95% normal-approximation CI, with the
zero-total-weight and degenerate-CI guards of the source. -/
noncomputable def calculate_prevalence_ci (group : List Row) : PrevCI :=
  if totalWeight group = 0 then
    { prevalence := none, n_eff := 0, ci_lower := none, ci_upper := none,
      prevalence_ci_str := CIStr.na }
  else if kishNeff group = 0 ∨ ¬(0 ≤ prevalenceQ group ∧ prevalenceQ group ≤ 1) then
    { prevalence := some (prevalenceQ group), n_eff := kishNeff group,
      ci_lower := none, ci_upper := none,
      prevalence_ci_str := CIStr.pctNA (prevalenceQ group) }
  else
    { prevalence := some (prevalenceQ group), n_eff := kishNeff group,
      ci_lower := some (ciLowerOf group), ci_upper := some (ciUpperOf group),
      prevalence_ci_str := CIStr.pctCI (prevalenceQ group) (ciLowerOf group) (ciUpperOf group) }

/-- The `pd.Series` returned by `calculate_metrics`. -/
structure Metrics where
  prevalence : Option ℚ
  n : ℕ
  rse : Option ℝ

/-- `rse = (se / prevalence) * 100` with `se = sqrt(p*(1-p)/n_eff)`, under
the guard `n_eff == 0 or prevalence <= 0 or prevalence >= 1` (then `NaN`). -/
noncomputable def rseOf (group : List Row) : Option ℝ :=
  if kishNeffPos group = 0 ∨ prevalenceQ group ≤ 0 ∨ 1 ≤ prevalenceQ group then none
  else
    some (Real.sqrt (((prevalenceQ group : ℝ) * (1 - (prevalenceQ group : ℝ)))
            / (kishNeffPos group : ℝ)) / (prevalenceQ group : ℝ) * 100)

/-- `calculate_metrics` of `generate_smoking_prevalence_map_v9.py`:
weighted prevalence, unweighted group size, and the relative standard
error in percent, with the source's guards. -/
noncomputable def calculate_metrics (group : List Row) : Metrics :=
  if totalWeight group = 0 ∨ group.length = 0 then
    { prevalence := none, n := group.length, rse := none }
  else
    { prevalence := some (prevalenceQ group), n := group.length, rse := rseOf group }

/-- One row of the descriptives dataset: `currentsmoker` may be missing. -/
structure DRow where
  llcpwt : ℚ
  currentsmoker : Option ℚ
deriving DecidableEq

/-- `g[g['currentsmoker'].notna()]`. -/
def validRows (g : List DRow) : List DRow :=
  g.filter (fun r => r.currentsmoker.isSome)

/-- Weight sum over rows with non-missing smoking status. -/
def validWeight (g : List DRow) : ℚ :=
  ((validRows g).map (fun r => r.llcpwt)).sum

/-- Weighted smoker sum over rows with non-missing smoking status. -/
def validWeightedSmokers (g : List DRow) : ℚ :=
  ((validRows g).map (fun r => r.llcpwt * r.currentsmoker.getD 0)).sum

/-- The `pd.Series` computed per category group inside `summarize`. -/
structure SummaryRow where
  weightedSampleAll : ℚ
  percentageOfAll : ℚ
  weightedSampleValid : ℚ
  smokingPrevalence : ℚ
deriving DecidableEq

/-- The per-group body of `summarize` in `descriptives_final.py`;
`total_weight_all` is the script-level total weight captured by the
closure. -/
def summarizeGroup (total_weight_all : ℚ) (g : List DRow) : SummaryRow :=
  { weightedSampleAll := (g.map (fun r => r.llcpwt)).sum
    percentageOfAll := (g.map (fun r => r.llcpwt)).sum / total_weight_all * 100
    weightedSampleValid := validWeight g
    smokingPrevalence :=
      if 0 < validWeight g then validWeightedSmokers g / validWeight g * 100 else 0 }

/-! ### The grouping pipelines -/

/-- The urban/rural category `URRU.map({0: 'Urban', 1: 'Rural'})`. -/
inductive URCat where
  | urban
  | rural
deriving DecidableEq

/-- One cleaned row of the combined BRFSS table, after the scripts'
`to_numeric` conversion and `dropna` over the key columns. -/
structure SurveyRow where
  state : ℕ
  year_centered : ℤ
  urru : ℤ
  llcpwt : ℚ
  currentsmoker : ℚ
deriving DecidableEq

/-- The estimator-facing projection of a survey row. -/
def toRow (r : SurveyRow) : Row :=
  { llcpwt := r.llcpwt, currentsmoker := r.currentsmoker }

/-- `df.groupby(key).apply(f)`: one output row per distinct key, each
computed from exactly the input rows carrying that key. -/
def groupBy {κ β : Type} [DecidableEq κ] (key : SurveyRow → κ) (f : List SurveyRow → β)
    (rows : List SurveyRow) : List (κ × β) :=
  ((rows.map key).dedup).map (fun k => (k, f (rows.filter (fun r => key r = k))))

/-- `URRU_cat` for rows already restricted to `URRU ∈ {0, 1}`. -/
def urruCat (u : ℤ) : URCat :=
  if u = 0 then URCat.urban else URCat.rural

/-- One year of the appendix pipeline: filter `year_centered` to the
year's value, drop rows whose `URRU` is not 0/1 (their category is NaN
and pandas `groupby` drops NaN keys), then group by
`(_STATE, URRU_cat)` and apply `calculate_prevalence_ci`. -/
noncomputable def appendixYearSummary (y : ℤ) (rows : List SurveyRow) :
    List ((ℕ × URCat) × PrevCI) :=
  groupBy (fun r => (r.state, urruCat r.urru))
    (fun g => calculate_prevalence_ci (g.map toRow))
    ((rows.filter (fun r => r.year_centered = y)).filter (fun r => r.urru = 0 ∨ r.urru = 1))

/-- `year_map = {-2: 2018, 4: 2024}` applied to `year_centered`
(rows with other values are filtered out before this is consulted). -/
def yearOf (yc : ℤ) : ℤ :=
  if yc = -2 then 2018 else 2024

/-- The prevalence-map pipeline up to `metrics`: keep the observed years,
group by `(_STATE, year, URRU)`, apply `calculate_metrics`. -/
noncomputable def mapMetrics (rows : List SurveyRow) : List ((ℕ × ℤ × ℤ) × Metrics) :=
  groupBy (fun r => (r.state, yearOf r.year_centered, r.urru))
    (fun g => calculate_metrics (g.map toRow))
    (rows.filter (fun r => r.year_centered = -2 ∨ r.year_centered = 4))

/-! ### Appendix table: pivot, ratio, outer merge -/

/-- One state's row of a year's pivot of the summary: rural and urban
prevalence side by side and the rural/urban ratio. -/
structure PivotRow where
  state : ℕ
  ruralPrev : Option ℚ
  urbanPrev : Option ℚ
  ratioRU : Option ℚ

/-- `pivot_table(..., aggfunc='first')` cell lookup. -/
def lookupPrev (summary : List ((ℕ × URCat) × PrevCI)) (s : ℕ) (c : URCat) : Option ℚ :=
  match summary.find? (fun e => e.1 = (s, c)) with
  | some e => e.2.prevalence
  | none => none

/-- `prevalence_Rural / prevalence_Urban` followed by
`replace([inf, -inf], nan)`: float division by a zero urban prevalence
yields `±inf` or NaN, all `none` here, and a missing operand propagates
NaN. -/
def ratioOf (rural urban : Option ℚ) : Option ℚ :=
  match rural, urban with
  | some r, some u => if u = 0 then none else some (r / u)
  | _, _ => none

/-- One year's pivot: one row per state occurring in the summary. -/
def pivotYear (summary : List ((ℕ × URCat) × PrevCI)) : List PivotRow :=
  ((summary.map (fun e => e.1.1)).dedup).map (fun s =>
    { state := s
      ruralPrev := lookupPrev summary s URCat.rural
      urbanPrev := lookupPrev summary s URCat.urban
      ratioRU := ratioOf (lookupPrev summary s URCat.rural) (lookupPrev summary s URCat.urban) })

/-- One state's row of the final appendix table. -/
structure FinalRow where
  state : ℕ
  ratio2018 : Option ℚ
  ratio2024 : Option ℚ
  ratioChange : Option ℚ

/-- NaN-propagating subtraction of two float columns. -/
def optSub : Option ℚ → Option ℚ → Option ℚ
  | some a, some b => some (a - b)
  | _, _ => none

/-- The `Ratio_<year>` column value of a state in a year's pivot (NaN for
a state absent from that year). -/
def lookupRatio (piv : List PivotRow) (s : ℕ) : Option ℚ :=
  match piv.find? (fun p => p.state = s) with
  | some p => p.ratioRU
  | none => none

/-- `pd.merge(df_2018_final, df_2024_final, ..., how='outer')` followed by
`Change_In_Ratio = Ratio_2024 - Ratio_2018`. -/
def mergeYears (p18 p24 : List PivotRow) : List FinalRow :=
  ((p18.map (fun p => p.state) ++ p24.map (fun p => p.state)).dedup).map (fun s =>
    { state := s
      ratio2018 := lookupRatio p18 s
      ratio2024 := lookupRatio p24 s
      ratioChange := optSub (lookupRatio p24 s) (lookupRatio p18 s) })

/-- The appendix pipeline end to end: per-year summaries
(`year_centered = -2` is 2018, `4` is 2024), pivots, outer merge. -/
noncomputable def appendixTable (rows : List SurveyRow) : List FinalRow :=
  mergeYears (pivotYear (appendixYearSummary (-2) rows))
    (pivotYear (appendixYearSummary 4 rows))

/-! ### Reliability flagging in the map pipeline -/

/-- `is_unreliable = (n < 50) | (rse > 30)`; a NaN rse compares as not
greater, as in pandas. -/
def isUnreliable (m : Metrics) : Prop :=
  m.n < 50 ∨ ∃ r : ℝ, m.rse = some r ∧ 30 < r

open Classical in
/-- `final_metrics.loc[final_metrics['is_unreliable'], 'prevalence'] = np.nan`. -/
noncomputable def dropUnreliable (m : Metrics) : Metrics :=
  if isUnreliable m then { m with prevalence := none } else m

/-- The final mapped dataset: the grouped metrics with unreliable
prevalences blanked. -/
noncomputable def finalMetrics (rows : List SurveyRow) : List ((ℕ × ℤ × ℤ) × Metrics) :=
  (mapMetrics rows).map (fun e => (e.1, dropUnreliable e.2))

/-! ### Basic lemmas about the estimator components -/

theorem sumWeightsSq_nonneg (g : List Row) : 0 ≤ sumWeightsSq g := by
  apply List.sum_nonneg
  intro x hx
  obtain ⟨r, _, rfl⟩ := List.mem_map.mp hx
  positivity

theorem kishNeffPos_eq_kishNeff (g : List Row) : kishNeffPos g = kishNeff g := by
  unfold kishNeffPos kishNeff
  rcases eq_or_lt_of_le (sumWeightsSq_nonneg g) with h | h
  · rw [if_neg (by rw [← h]; exact lt_irrefl 0), if_pos h.symm]
  · rw [if_pos h, if_neg (by exact fun hc => absurd (hc ▸ h) (lt_irrefl 0))]

theorem kishNeff_of_totalWeight_eq_zero (g : List Row) (h : totalWeight g = 0) :
    kishNeff g = 0 := by
  unfold kishNeff
  split
  · rfl
  · rw [h]
    norm_num

theorem calculate_prevalence_ci_n_eff (g : List Row) :
    (calculate_prevalence_ci g).n_eff = kishNeff g := by
  unfold calculate_prevalence_ci
  split
  · rename_i h
    rw [kishNeff_of_totalWeight_eq_zero g h]
  · split <;> rfl

theorem totalWeight_ne_zero_length (g : List Row) (h : totalWeight g ≠ 0) :
    g.length ≠ 0 := by
  intro hlen
  apply h
  rw [List.length_eq_zero] at hlen
  simp [hlen, totalWeight]

theorem sumWeightsSq_ne_zero_of_totalWeight (g : List Row) (h : totalWeight g ≠ 0) :
    sumWeightsSq g ≠ 0 := by
  intro hsq
  apply h
  have hall : ∀ r ∈ g, r.llcpwt = 0 := by
    intro r hr
    have hmem : r.llcpwt ^ 2 ∈ g.map (fun r => r.llcpwt ^ 2) := List.mem_map_of_mem _ hr
    have hnn : ∀ x ∈ g.map (fun r => r.llcpwt ^ 2), 0 ≤ x := by
      intro x hx
      obtain ⟨s, _, rfl⟩ := List.mem_map.mp hx
      positivity
    have hle : r.llcpwt ^ 2 ≤ 0 := hsq ▸ List.single_le_sum hnn _ hmem
    have : r.llcpwt ^ 2 = 0 := le_antisymm hle (by positivity)
    exact pow_eq_zero_iff (n := 2) (by norm_num) |>.mp this
  unfold totalWeight
  apply List.sum_eq_zero
  intro x hx
  obtain ⟨r, hr, rfl⟩ := List.mem_map.mp hx
  exact hall r hr

theorem kishNeff_ne_zero_of_totalWeight (g : List Row) (h : totalWeight g ≠ 0) :
    kishNeff g ≠ 0 := by
  unfold kishNeff
  rw [if_neg (sumWeightsSq_ne_zero_of_totalWeight g h)]
  exact div_ne_zero (pow_ne_zero 2 h) (sumWeightsSq_ne_zero_of_totalWeight g h)

theorem pForCI_eq_prevalence (g : List Row) (h0 : 0 ≤ prevalenceQ g)
    (h1 : prevalenceQ g ≤ 1) : pForCI g = prevalenceQ g := by
  unfold pForCI
  rw [min_eq_right h1, max_eq_right h0]

/-- C1 (amended): with non-zero total weight, both estimators return the
weighted prevalence Σ(indicator·weight)/Σweight; `summarize`'s per-category
smoking prevalence is that ratio over valid rows, as a percentage, for
groups whose valid weight sum is positive. -/
theorem C1_weighted_prevalence :
    (∀ g : List Row, totalWeight g ≠ 0 →
        (calculate_prevalence_ci g).prevalence = some (weightedSmokers g / totalWeight g) ∧
        (calculate_metrics g).prevalence = some (weightedSmokers g / totalWeight g)) ∧
    (∀ (twAll : ℚ) (g : List DRow), 0 < validWeight g →
        (summarizeGroup twAll g).smokingPrevalence =
          validWeightedSmokers g / validWeight g * 100) := by
  refine ⟨fun g h => ⟨?_, ?_⟩, fun twAll g h => ?_⟩
  · unfold calculate_prevalence_ci
    rw [if_neg h]
    split <;> rfl
  · unfold calculate_metrics
    rw [if_neg (by push_neg; exact ⟨h, totalWeight_ne_zero_length g h⟩)]
    rfl
  · unfold summarizeGroup
    simp only [if_pos h]

/-- C1 counterexample: a single valid row of weight −1 has non-zero valid
weight sum, yet `summarize` returns prevalence 0 while the claimed formula
gives 100, because the code's guard is `> 0`, not `≠ 0`. -/
theorem C1_counterexample :
    validWeight [⟨-1, some 1⟩] ≠ 0 ∧
    (summarizeGroup 1 [⟨-1, some 1⟩]).smokingPrevalence = 0 ∧
    validWeightedSmokers [⟨-1, some 1⟩] / validWeight [⟨-1, some 1⟩] * 100 = 100 := by
  norm_num [validWeight, validWeightedSmokers, validRows, summarizeGroup]

/-- C1 witness at concrete groups. -/
theorem C1_weighted_prevalence_witness :
    (calculate_prevalence_ci [⟨2, 1⟩, ⟨2, 0⟩]).prevalence =
      some (weightedSmokers [⟨2, 1⟩, ⟨2, 0⟩] / totalWeight [⟨2, 1⟩, ⟨2, 0⟩]) ∧
    (summarizeGroup 4 [⟨2, some 1⟩, ⟨2, some 0⟩]).smokingPrevalence =
      validWeightedSmokers [⟨2, some 1⟩, ⟨2, some 0⟩] /
        validWeight [⟨2, some 1⟩, ⟨2, some 0⟩] * 100 :=
  ⟨(C1_weighted_prevalence.1 _ (by norm_num [totalWeight])).1,
   C1_weighted_prevalence.2 4 _ (by norm_num [validWeight, validRows])⟩

/-- C2: the `n_eff` returned by `calculate_prevalence_ci`, and the `n_eff`
computed inside `calculate_metrics` (`kishNeffPos`), equal Kish's
(Σw)²/Σw² when Σw² ≠ 0 and are 0 when Σw² = 0. -/
theorem C2_effective_sample_size :
    (∀ g : List Row, sumWeightsSq g ≠ 0 →
        (calculate_prevalence_ci g).n_eff = totalWeight g ^ 2 / sumWeightsSq g ∧
        kishNeffPos g = totalWeight g ^ 2 / sumWeightsSq g) ∧
    (∀ g : List Row, sumWeightsSq g = 0 →
        (calculate_prevalence_ci g).n_eff = 0 ∧ kishNeffPos g = 0) := by
  constructor
  · intro g h
    rw [calculate_prevalence_ci_n_eff, kishNeffPos_eq_kishNeff]
    unfold kishNeff
    rw [if_neg h]
    exact ⟨rfl, rfl⟩
  · intro g h
    rw [calculate_prevalence_ci_n_eff, kishNeffPos_eq_kishNeff]
    unfold kishNeff
    rw [if_pos h]
    exact ⟨rfl, rfl⟩

/-- C2 witness at a concrete group and at the empty group. -/
theorem C2_effective_sample_size_witness :
    ((calculate_prevalence_ci [⟨2, 1⟩, ⟨2, 0⟩]).n_eff =
        totalWeight [⟨2, 1⟩, ⟨2, 0⟩] ^ 2 / sumWeightsSq [⟨2, 1⟩, ⟨2, 0⟩] ∧
      kishNeffPos [⟨2, 1⟩, ⟨2, 0⟩] =
        totalWeight [⟨2, 1⟩, ⟨2, 0⟩] ^ 2 / sumWeightsSq [⟨2, 1⟩, ⟨2, 0⟩]) ∧
    ((calculate_prevalence_ci ([] : List Row)).n_eff = 0 ∧ kishNeffPos ([] : List Row) = 0) :=
  ⟨C2_effective_sample_size.1 _ (by norm_num [sumWeightsSq]),
   C2_effective_sample_size.2 _ (by norm_num [sumWeightsSq])⟩

/-- C3: zero total weight never divides: `calculate_prevalence_ci` returns
the NaN/0/'N/A' record, `calculate_metrics` returns NaN prevalence and
NaN rse, and `summarize` returns prevalence 0 when the valid weight sum is
not positive. -/
theorem C3_zero_weight_safety :
    (∀ g : List Row, totalWeight g = 0 →
        calculate_prevalence_ci g =
          { prevalence := none, n_eff := 0, ci_lower := none, ci_upper := none,
            prevalence_ci_str := CIStr.na }) ∧
    (∀ g : List Row, totalWeight g = 0 →
        (calculate_metrics g).prevalence = none ∧ (calculate_metrics g).rse = none) ∧
    (∀ (twAll : ℚ) (g : List DRow), ¬ 0 < validWeight g →
        (summarizeGroup twAll g).smokingPrevalence = 0) := by
  refine ⟨fun g h => ?_, fun g h => ?_, fun twAll g h => ?_⟩
  · unfold calculate_prevalence_ci
    rw [if_pos h]
  · unfold calculate_metrics
    rw [if_pos (Or.inl h)]
    exact ⟨rfl, rfl⟩
  · unfold summarizeGroup
    simp only [if_neg h]

/-- C3 witness: the empty group and a weight-cancelling group. -/
theorem C3_zero_weight_safety_witness :
    calculate_prevalence_ci [⟨1, 1⟩, ⟨-1, 0⟩] =
      { prevalence := none, n_eff := 0, ci_lower := none, ci_upper := none,
        prevalence_ci_str := CIStr.na } ∧
    (calculate_metrics ([] : List Row)).rse = none ∧
    (summarizeGroup 1 ([] : List DRow)).smokingPrevalence = 0 :=
  ⟨C3_zero_weight_safety.1 _ (by norm_num [totalWeight]),
   (C3_zero_weight_safety.2.1 _ (by norm_num [totalWeight])).2,
   C3_zero_weight_safety.2.2 1 _ (by norm_num [validWeight, validRows])⟩

theorem calculate_prevalence_ci_prevalence (g : List Row) (h : totalWeight g ≠ 0) :
    (calculate_prevalence_ci g).prevalence = some (prevalenceQ g) := by
  unfold calculate_prevalence_ci
  rw [if_neg h]
  split <;> rfl

theorem calculate_metrics_prevalence (g : List Row) (h : totalWeight g ≠ 0) :
    (calculate_metrics g).prevalence = some (prevalenceQ g) := by
  unfold calculate_metrics
  rw [if_neg (by push_neg; exact ⟨h, totalWeight_ne_zero_length g h⟩)]

theorem calculate_metrics_rse (g : List Row) (h : totalWeight g ≠ 0) :
    (calculate_metrics g).rse = rseOf g := by
  unfold calculate_metrics
  rw [if_neg (by push_neg; exact ⟨h, totalWeight_ne_zero_length g h⟩)]

/-- C4 (amended): in the defined domain the rse is the standard error over
the prevalence, times 100 (a percentage); outside it, NaN. -/
theorem C4_relative_standard_error :
    ∀ g : List Row, totalWeight g ≠ 0 →
      (kishNeffPos g ≠ 0 → 0 < prevalenceQ g → prevalenceQ g < 1 →
        (calculate_metrics g).rse =
          some (Real.sqrt (((prevalenceQ g : ℝ) * (1 - (prevalenceQ g : ℝ)))
              / (kishNeffPos g : ℝ)) / (prevalenceQ g : ℝ) * 100)) ∧
      (kishNeffPos g = 0 ∨ prevalenceQ g ≤ 0 ∨ 1 ≤ prevalenceQ g →
        (calculate_metrics g).rse = none) := by
  intro g htw
  constructor
  · intro hk h0 h1
    rw [calculate_metrics_rse g htw]
    unfold rseOf
    rw [if_neg (by push_neg; exact ⟨hk, h0, h1⟩)]
  · intro hdeg
    rw [calculate_metrics_rse g htw]
    unfold rseOf
    rw [if_pos hdeg]

/-- C4 counterexample: for four unit-weight rows with two smokers the code
returns rse = 50 (a percentage), not se/p = 1/2 as the claim reads. -/
theorem C4_counterexample :
    prevalenceQ [⟨1, 1⟩, ⟨1, 1⟩, ⟨1, 0⟩, ⟨1, 0⟩] = 1 / 2 ∧
    kishNeffPos [⟨1, 1⟩, ⟨1, 1⟩, ⟨1, 0⟩, ⟨1, 0⟩] = 4 ∧
    (calculate_metrics [⟨1, 1⟩, ⟨1, 1⟩, ⟨1, 0⟩, ⟨1, 0⟩]).rse = some 50 ∧
    Real.sqrt ((1 / 2 * (1 - 1 / 2)) / 4) / (1 / 2 : ℝ) = 1 / 2 ∧
    (calculate_metrics [⟨1, 1⟩, ⟨1, 1⟩, ⟨1, 0⟩, ⟨1, 0⟩]).rse ≠ some (1 / 2 : ℝ) := by
  have hsq : Real.sqrt ((1 / 2 * (1 - 1 / 2)) / 4) = 1 / 4 := by
    rw [show ((1:ℝ) / 2 * (1 - 1 / 2) / 4) = (1 / 4) ^ 2 by norm_num,
      Real.sqrt_sq (by norm_num)]
  have hrse : (calculate_metrics [⟨1, 1⟩, ⟨1, 1⟩, ⟨1, 0⟩, ⟨1, 0⟩]).rse = some 50 := by
    norm_num [calculate_metrics, rseOf, totalWeight, weightedSmokers, prevalenceQ,
      kishNeffPos, sumWeightsSq]
    rw [show (16:ℝ) = 4 ^ 2 by norm_num, Real.sqrt_sq (by norm_num)]
    norm_num
  refine ⟨by norm_num [prevalenceQ, weightedSmokers, totalWeight],
    by norm_num [kishNeffPos, totalWeight, sumWeightsSq], hrse, by rw [hsq]; norm_num, ?_⟩
  rw [hrse]
  intro hcontra
  have : (50 : ℝ) = 1 / 2 := Option.some.inj hcontra
  norm_num at this

/-- C4 witness at a concrete group in the defined domain and one outside. -/
theorem C4_relative_standard_error_witness :
    (calculate_metrics [⟨1, 1⟩, ⟨1, 0⟩]).rse =
      some (Real.sqrt (((prevalenceQ [⟨1, 1⟩, ⟨1, 0⟩] : ℝ) *
          (1 - (prevalenceQ [⟨1, 1⟩, ⟨1, 0⟩] : ℝ))) / (kishNeffPos [⟨1, 1⟩, ⟨1, 0⟩] : ℝ))
        / (prevalenceQ [⟨1, 1⟩, ⟨1, 0⟩] : ℝ) * 100) ∧
    (calculate_metrics [⟨1, 1⟩, ⟨1, 1⟩]).rse = none :=
  ⟨(C4_relative_standard_error _ (by norm_num [totalWeight])).1
      (by norm_num [kishNeffPos, totalWeight, sumWeightsSq])
      (by norm_num [prevalenceQ, weightedSmokers, totalWeight])
      (by norm_num [prevalenceQ, weightedSmokers, totalWeight]),
   (C4_relative_standard_error _ (by norm_num [totalWeight])).2
      (by norm_num [prevalenceQ, weightedSmokers, totalWeight])⟩

/-- C5: with positive n_eff and prevalence in [0,1] the CI is
[max(0, p−1.96·se), min(1, p+1.96·se)]; with n_eff 0 or p outside [0,1]
both bounds are NaN.  (The record always carries all four fields by the
shape of `PrevCI`.) -/
theorem C5_confidence_interval :
    ∀ g : List Row,
      (0 < (calculate_prevalence_ci g).n_eff → 0 ≤ prevalenceQ g → prevalenceQ g ≤ 1 →
        (calculate_prevalence_ci g).ci_lower =
          some (max 0 ((prevalenceQ g : ℝ) -
            1.96 * Real.sqrt (((prevalenceQ g : ℝ) * (1 - (prevalenceQ g : ℝ)))
              / ((calculate_prevalence_ci g).n_eff : ℝ)))) ∧
        (calculate_prevalence_ci g).ci_upper =
          some (min 1 ((prevalenceQ g : ℝ) +
            1.96 * Real.sqrt (((prevalenceQ g : ℝ) * (1 - (prevalenceQ g : ℝ)))
              / ((calculate_prevalence_ci g).n_eff : ℝ))))) ∧
      ((calculate_prevalence_ci g).n_eff = 0 ∨ ¬(0 ≤ prevalenceQ g ∧ prevalenceQ g ≤ 1) →
        (calculate_prevalence_ci g).ci_lower = none ∧
        (calculate_prevalence_ci g).ci_upper = none) := by
  intro g
  rw [calculate_prevalence_ci_n_eff]
  constructor
  · intro hpos h0 h1
    by_cases htw : totalWeight g = 0
    · exact absurd (kishNeff_of_totalWeight_eq_zero g htw) hpos.ne'
    · have hcond : ¬(kishNeff g = 0 ∨ ¬(0 ≤ prevalenceQ g ∧ prevalenceQ g ≤ 1)) := by
        push_neg
        exact ⟨hpos.ne', h0, h1⟩
      unfold calculate_prevalence_ci
      rw [if_neg htw, if_neg hcond]
      constructor
      · show some (ciLowerOf g) = _
        unfold ciLowerOf marginOfError
        rw [pForCI_eq_prevalence g h0 h1]
      · show some (ciUpperOf g) = _
        unfold ciUpperOf marginOfError
        rw [pForCI_eq_prevalence g h0 h1]
  · intro hdeg
    by_cases htw : totalWeight g = 0
    · unfold calculate_prevalence_ci
      rw [if_pos htw]
      exact ⟨rfl, rfl⟩
    · unfold calculate_prevalence_ci
      rw [if_neg htw, if_pos hdeg]
      exact ⟨rfl, rfl⟩

/-- C5 witness at a concrete group with n_eff = 4 and p = 1/2, and a
degenerate group with prevalence above 1. -/
theorem C5_confidence_interval_witness :
    (calculate_prevalence_ci [⟨1, 1⟩, ⟨1, 1⟩, ⟨1, 0⟩, ⟨1, 0⟩]).ci_lower =
      some (max 0 ((prevalenceQ [⟨1, 1⟩, ⟨1, 1⟩, ⟨1, 0⟩, ⟨1, 0⟩] : ℝ) -
        1.96 * Real.sqrt (((prevalenceQ [⟨1, 1⟩, ⟨1, 1⟩, ⟨1, 0⟩, ⟨1, 0⟩] : ℝ) *
            (1 - (prevalenceQ [⟨1, 1⟩, ⟨1, 1⟩, ⟨1, 0⟩, ⟨1, 0⟩] : ℝ)))
          / ((calculate_prevalence_ci [⟨1, 1⟩, ⟨1, 1⟩, ⟨1, 0⟩, ⟨1, 0⟩]).n_eff : ℝ)))) ∧
    (calculate_prevalence_ci [⟨1, 2⟩]).ci_lower = none :=
  ⟨((C5_confidence_interval [⟨1, 1⟩, ⟨1, 1⟩, ⟨1, 0⟩, ⟨1, 0⟩]).1
      (by rw [calculate_prevalence_ci_n_eff]
          norm_num [kishNeff, sumWeightsSq, totalWeight])
      (by norm_num [prevalenceQ, weightedSmokers, totalWeight])
      (by norm_num [prevalenceQ, weightedSmokers, totalWeight])).1,
   ((C5_confidence_interval [⟨1, 2⟩]).2
      (Or.inr (by norm_num [prevalenceQ, weightedSmokers, totalWeight]))).1⟩

/-- C8: with non-negative weights, 0/1 indicators and positive total
weight, the prevalence both estimators return lies in [0,1]. -/
theorem C8_prevalence_unit_interval :
    ∀ g : List Row, (∀ r ∈ g, 0 ≤ r.llcpwt) →
      (∀ r ∈ g, r.currentsmoker = 0 ∨ r.currentsmoker = 1) →
      0 < totalWeight g →
      0 ≤ prevalenceQ g ∧ prevalenceQ g ≤ 1 ∧
      (calculate_prevalence_ci g).prevalence = some (prevalenceQ g) ∧
      (calculate_metrics g).prevalence = some (prevalenceQ g) := by
  intro g hw hs htw
  have hws0 : 0 ≤ weightedSmokers g := by
    apply List.sum_nonneg
    intro x hx
    obtain ⟨r, hr, rfl⟩ := List.mem_map.mp hx
    exact mul_nonneg (hw r hr) (by rcases hs r hr with h | h <;> rw [h]; norm_num)
  have hle : weightedSmokers g ≤ totalWeight g := by
    unfold weightedSmokers totalWeight
    apply List.sum_le_sum
    intro r hr
    rcases hs r hr with h | h
    · rw [h, mul_zero]
      exact hw r hr
    · rw [h, mul_one]
  refine ⟨div_nonneg hws0 htw.le, ?_, calculate_prevalence_ci_prevalence g htw.ne',
    calculate_metrics_prevalence g htw.ne'⟩
  unfold prevalenceQ
  rw [div_le_one htw]
  exact hle

/-- C8 witness at a concrete group. -/
theorem C8_prevalence_unit_interval_witness :
    0 ≤ prevalenceQ [⟨2, 1⟩, ⟨2, 0⟩] ∧ prevalenceQ [⟨2, 1⟩, ⟨2, 0⟩] ≤ 1 ∧
    (calculate_prevalence_ci [⟨2, 1⟩, ⟨2, 0⟩]).prevalence =
      some (prevalenceQ [⟨2, 1⟩, ⟨2, 0⟩]) ∧
    (calculate_metrics [⟨2, 1⟩, ⟨2, 0⟩]).prevalence = some (prevalenceQ [⟨2, 1⟩, ⟨2, 0⟩]) :=
  C8_prevalence_unit_interval _ (by intro r hr; fin_cases hr <;> norm_num)
    (by intro r hr; fin_cases hr <;> norm_num) (by norm_num [totalWeight])

theorem groupBy_mem {κ β : Type} [DecidableEq κ] (key : SurveyRow → κ)
    (f : List SurveyRow → β) (rows : List SurveyRow) (k : κ) (b : β)
    (h : (k, b) ∈ groupBy key f rows) : b = f (rows.filter (fun r => key r = k)) := by
  unfold groupBy at h
  obtain ⟨k', _, heq⟩ := List.mem_map.mp h
  obtain ⟨hk, hb⟩ := Prod.mk.injEq .. ▸ heq
  exact hb ▸ hk ▸ rfl

/-- C6: every summary row of the appendix pipeline is keyed by
(state, urban/rural) within the filtered year and computed from exactly
the rows of that group, and every row of the map pipeline is keyed by
(state, year, urban/rural) likewise. -/
theorem C6_stratified_grouping :
    (∀ (y : ℤ) (rows : List SurveyRow) (s : ℕ) (c : URCat) (p : PrevCI),
        ((s, c), p) ∈ appendixYearSummary y rows →
        p = calculate_prevalence_ci
          ((rows.filter (fun r => r.year_centered = y ∧ (r.urru = 0 ∨ r.urru = 1) ∧
              r.state = s ∧ urruCat r.urru = c)).map toRow)) ∧
    (∀ (rows : List SurveyRow) (s : ℕ) (yr u : ℤ) (m : Metrics),
        ((s, yr, u), m) ∈ mapMetrics rows →
        m = calculate_metrics
          ((rows.filter (fun r => (r.year_centered = -2 ∨ r.year_centered = 4) ∧
              r.state = s ∧ yearOf r.year_centered = yr ∧ r.urru = u)).map toRow)) := by
  constructor
  · intro y rows s c p hmem
    have h := groupBy_mem _ _ _ _ _ hmem
    rw [h, List.filter_filter, List.filter_filter]
    congr 1
    congr 1
    apply List.filter_congr
    intro r _
    apply Bool.coe_iff_coe.mp
    simp only [Bool.and_eq_true, decide_eq_true_eq, Prod.mk.injEq]
    tauto
  · intro rows s yr u m hmem
    have h := groupBy_mem _ _ _ _ _ hmem
    rw [h, List.filter_filter]
    congr 1
    congr 1
    apply List.filter_congr
    intro r _
    apply Bool.coe_iff_coe.mp
    simp only [Bool.and_eq_true, decide_eq_true_eq, Prod.mk.injEq]
    tauto

/-- C6 witness: a one-row dataset, checked through both pipelines. -/
theorem C6_stratified_grouping_witness :
    calculate_prevalence_ci [⟨2, 1⟩] =
      calculate_prevalence_ci
        ((([⟨1, -2, 0, 2, 1⟩] : List SurveyRow).filter
            (fun r => r.year_centered = -2 ∧ (r.urru = 0 ∨ r.urru = 1) ∧
              r.state = 1 ∧ urruCat r.urru = URCat.urban)).map toRow) ∧
    calculate_metrics [⟨2, 1⟩] =
      calculate_metrics
        ((([⟨1, -2, 0, 2, 1⟩] : List SurveyRow).filter
            (fun r => (r.year_centered = -2 ∨ r.year_centered = 4) ∧
              r.state = 1 ∧ yearOf r.year_centered = 2018 ∧ r.urru = 0)).map toRow) :=
  ⟨C6_stratified_grouping.1 (-2) [⟨1, -2, 0, 2, 1⟩] 1 URCat.urban _
      (by simp [appendixYearSummary, groupBy, urruCat, toRow]),
   C6_stratified_grouping.2 [⟨1, -2, 0, 2, 1⟩] 1 2018 0 _
      (by simp [mapMetrics, groupBy, yearOf, toRow])⟩

/-- C7: the pivot has one row per state with ratio rural/urban
(±inf → NaN), the outer merge keeps exactly the states present in either
year, and `Change_In_Ratio = Ratio_2024 - Ratio_2018` on every row. -/
theorem C7_pivot_merge_change :
    (∀ summary : List ((ℕ × URCat) × PrevCI),
        ((pivotYear summary).map (fun pr => pr.state)).Nodup ∧
        ∀ pr ∈ pivotYear summary,
          pr.ruralPrev = lookupPrev summary pr.state URCat.rural ∧
          pr.urbanPrev = lookupPrev summary pr.state URCat.urban ∧
          pr.ratioRU = ratioOf pr.ruralPrev pr.urbanPrev) ∧
    (∀ (rows : List SurveyRow) (s : ℕ),
        s ∈ (appendixTable rows).map (fun fr => fr.state) ↔
          s ∈ (pivotYear (appendixYearSummary (-2) rows)).map (fun pr => pr.state) ∨
          s ∈ (pivotYear (appendixYearSummary 4 rows)).map (fun pr => pr.state)) ∧
    (∀ (rows : List SurveyRow), ∀ fr ∈ appendixTable rows,
        fr.ratio2018 = lookupRatio (pivotYear (appendixYearSummary (-2) rows)) fr.state ∧
        fr.ratio2024 = lookupRatio (pivotYear (appendixYearSummary 4 rows)) fr.state ∧
        fr.ratioChange = optSub fr.ratio2024 fr.ratio2018) := by
  refine ⟨fun summary => ⟨?_, ?_⟩, fun rows s => ?_, fun rows fr hfr => ?_⟩
  · have : (pivotYear summary).map (fun pr => pr.state) =
        (summary.map (fun e => e.1.1)).dedup := by
      unfold pivotYear
      rw [List.map_map]
      exact List.map_id' _
    rw [this]
    exact List.nodup_dedup _
  · intro pr hpr
    obtain ⟨s, _, rfl⟩ := List.mem_map.mp hpr
    exact ⟨rfl, rfl, rfl⟩
  · unfold appendixTable mergeYears
    rw [List.map_map]
    constructor
    · intro h
      obtain ⟨s', hs', heq⟩ := List.mem_map.mp h
      have heq' : s' = s := heq
      subst heq'
      have := List.mem_dedup.mp hs'
      rcases List.mem_append.mp this with h18 | h24
      · exact Or.inl h18
      · exact Or.inr h24
    · intro h
      apply List.mem_map.mpr
      refine ⟨s, List.mem_dedup.mpr (List.mem_append.mpr ?_), rfl⟩
      rcases h with h | h
      · exact Or.inl h
      · exact Or.inr h
  · unfold appendixTable mergeYears at hfr
    obtain ⟨s, _, rfl⟩ := List.mem_map.mp hfr
    exact ⟨rfl, rfl, rfl⟩

/-- C7 witness: a one-row 2018 dataset (urban only), so the pivot row is
(state 1, rural NaN, urban 1, ratio NaN) and the merged row carries all-NaN
ratios. -/
theorem C7_pivot_merge_change_witness :
    ((⟨1, none, some 1, none⟩ : PivotRow).ruralPrev =
        lookupPrev [((1, URCat.urban), calculate_prevalence_ci [⟨2, 1⟩])] 1 URCat.rural ∧
      (⟨1, none, some 1, none⟩ : PivotRow).urbanPrev =
        lookupPrev [((1, URCat.urban), calculate_prevalence_ci [⟨2, 1⟩])] 1 URCat.urban ∧
      (⟨1, none, some 1, none⟩ : PivotRow).ratioRU =
        ratioOf (⟨1, none, some 1, none⟩ : PivotRow).ruralPrev
          (⟨1, none, some 1, none⟩ : PivotRow).urbanPrev) ∧
    (1 ∈ (appendixTable [⟨1, -2, 0, 2, 1⟩]).map (fun fr => fr.state)) ∧
    ((⟨1, none, none, none⟩ : FinalRow).ratio2018 =
        lookupRatio (pivotYear (appendixYearSummary (-2) [⟨1, -2, 0, 2, 1⟩])) 1 ∧
      (⟨1, none, none, none⟩ : FinalRow).ratio2024 =
        lookupRatio (pivotYear (appendixYearSummary 4 [⟨1, -2, 0, 2, 1⟩])) 1 ∧
      (⟨1, none, none, none⟩ : FinalRow).ratioChange =
        optSub (⟨1, none, none, none⟩ : FinalRow).ratio2024
          (⟨1, none, none, none⟩ : FinalRow).ratio2018) :=
  ⟨(C7_pivot_merge_change.1 [((1, URCat.urban), calculate_prevalence_ci [⟨2, 1⟩])]).2 _
      (by simp [pivotYear, lookupPrev, ratioOf, calculate_prevalence_ci, prevalenceQ,
            weightedSmokers, totalWeight, kishNeff, sumWeightsSq]),
   (C7_pivot_merge_change.2.1 [⟨1, -2, 0, 2, 1⟩] 1).mpr
      (Or.inl (by simp [pivotYear, appendixYearSummary, groupBy, urruCat])),
   C7_pivot_merge_change.2.2 [⟨1, -2, 0, 2, 1⟩] _
      (by simp [appendixTable, mergeYears, pivotYear, appendixYearSummary, groupBy,
            urruCat, lookupRatio, lookupPrev, ratioOf, optSub])⟩

/-- C10: an estimate with n < 50 or rse > 30 has its prevalence blanked;
one with n ≥ 50 and rse not above 30 (including NaN rse) is untouched; the
final dataset is exactly the grouped metrics after this blanking. -/
theorem C10_unreliable_blanked :
    (∀ m : Metrics, m.n < 50 ∨ (∃ r : ℝ, m.rse = some r ∧ 30 < r) →
        (dropUnreliable m).prevalence = none ∧
        (dropUnreliable m).n = m.n ∧ (dropUnreliable m).rse = m.rse) ∧
    (∀ m : Metrics, 50 ≤ m.n → (∀ r : ℝ, m.rse = some r → r ≤ 30) →
        dropUnreliable m = m) ∧
    (∀ (rows : List SurveyRow) (e : (ℕ × ℤ × ℤ) × Metrics),
        e ∈ finalMetrics rows ↔
          ∃ m : Metrics, (e.1, m) ∈ mapMetrics rows ∧ e.2 = dropUnreliable m) := by
  refine ⟨fun m h => ?_, fun m hn hr => ?_, fun rows e => ?_⟩
  · unfold dropUnreliable
    rw [if_pos (show isUnreliable m from h)]
    exact ⟨rfl, rfl, rfl⟩
  · unfold dropUnreliable
    rw [if_neg (show ¬ isUnreliable m from ?_)]
    rintro (h | ⟨r, hrse, hgt⟩)
    · exact absurd hn (by omega)
    · exact absurd (hr r hrse) (not_le.mpr hgt)
  · unfold finalMetrics
    constructor
    · intro h
      obtain ⟨e₀, he₀, rfl⟩ := List.mem_map.mp h
      exact ⟨e₀.2, he₀, rfl⟩
    · rintro ⟨m, hm, he⟩
      apply List.mem_map.mpr
      refine ⟨(e.1, m), hm, ?_⟩
      rw [← he]

/-- C10 witness: a small-n estimate is blanked, a large-n NaN-rse
estimate survives, and membership transfers on a one-row dataset. -/
theorem C10_unreliable_blanked_witness :
    ((dropUnreliable ⟨some (1/2), 10, none⟩).prevalence = none ∧
      (dropUnreliable ⟨some (1/2), 10, none⟩).n = 10 ∧
      (dropUnreliable ⟨some (1/2), 10, none⟩).rse = none) ∧
    dropUnreliable ⟨some (1/2), 60, none⟩ = ⟨some (1/2), 60, none⟩ ∧
    (((1, 2018, 0), dropUnreliable (calculate_metrics [⟨2, 1⟩])) ∈
        finalMetrics [⟨1, -2, 0, 2, 1⟩] ↔
      ∃ m : Metrics, ((1, 2018, 0), m) ∈ mapMetrics [⟨1, -2, 0, 2, 1⟩] ∧
        dropUnreliable (calculate_metrics [⟨2, 1⟩]) = dropUnreliable m) :=
  ⟨C10_unreliable_blanked.1 ⟨some (1/2), 10, none⟩ (Or.inl (by norm_num)),
   C10_unreliable_blanked.2.1 ⟨some (1/2), 60, none⟩ (by norm_num)
      (fun r hr => by simp at hr),
   C10_unreliable_blanked.2.2 [⟨1, -2, 0, 2, 1⟩] ((1, 2018, 0), dropUnreliable (calculate_metrics [⟨2, 1⟩]))⟩

/-! ### Cauchy-Schwarz facts for the effective sample size -/

theorem pairSq_sum_eq (a : ℚ) (t : List ℚ) :
    (t.map (fun x => (a - x) ^ 2)).sum =
      t.length * a ^ 2 - 2 * a * t.sum + (t.map (fun x => x ^ 2)).sum := by
  induction t with
  | nil => simp
  | cons b t ih =>
    simp only [List.map_cons, List.sum_cons, List.length_cons, ih]
    push_cast
    ring

theorem pairSq_sum_nonneg (a : ℚ) (t : List ℚ) :
    0 ≤ (t.map (fun x => (a - x) ^ 2)).sum := by
  apply List.sum_nonneg
  intro z hz
  obtain ⟨x, _, rfl⟩ := List.mem_map.mp hz
  positivity

theorem pairSq_sum_eq_zero_iff (a : ℚ) (t : List ℚ) :
    (t.map (fun x => (a - x) ^ 2)).sum = 0 ↔ ∀ x ∈ t, a = x := by
  constructor
  · intro h x hx
    have hnn : ∀ z ∈ t.map (fun x => (a - x) ^ 2), 0 ≤ z := by
      intro z hz
      obtain ⟨x', _, rfl⟩ := List.mem_map.mp hz
      positivity
    have hle : (a - x) ^ 2 ≤ 0 :=
      h ▸ List.single_le_sum hnn _ (List.mem_map_of_mem _ hx)
    have hz : (a - x) ^ 2 = 0 := le_antisymm hle (by positivity)
    have := pow_eq_zero_iff (n := 2) (by norm_num) |>.mp hz
    linarith [sub_eq_zero.mp this]
  · intro h
    apply List.sum_eq_zero
    intro z hz
    obtain ⟨x, hx, rfl⟩ := List.mem_map.mp hz
    rw [← h x hx]
    ring

theorem sq_sum_le_card_mul (l : List ℚ) :
    l.sum ^ 2 ≤ l.length * (l.map (fun x => x ^ 2)).sum := by
  induction l with
  | nil => simp
  | cons a t ih =>
    have key : ((t.length : ℚ) + 1) * (a ^ 2 + (t.map (fun x => x ^ 2)).sum) -
        (a + t.sum) ^ 2 =
        ((t.length : ℚ) * (t.map (fun x => x ^ 2)).sum - t.sum ^ 2) +
          (t.map (fun x => (a - x) ^ 2)).sum := by
      rw [pairSq_sum_eq]
      ring
    simp only [List.sum_cons, List.map_cons, List.length_cons]
    push_cast
    linarith [ih, pairSq_sum_nonneg a t, key]

theorem sq_sum_eq_card_iff (l : List ℚ) :
    l.sum ^ 2 = l.length * (l.map (fun x => x ^ 2)).sum ↔
      ∀ x ∈ l, ∀ y ∈ l, x = y := by
  induction l with
  | nil => simp
  | cons a t ih =>
    have key : ((t.length : ℚ) + 1) * (a ^ 2 + (t.map (fun x => x ^ 2)).sum) -
        (a + t.sum) ^ 2 =
        ((t.length : ℚ) * (t.map (fun x => x ^ 2)).sum - t.sum ^ 2) +
          (t.map (fun x => (a - x) ^ 2)).sum := by
      rw [pairSq_sum_eq]
      ring
    simp only [List.sum_cons, List.map_cons, List.length_cons]
    push_cast
    constructor
    · intro h
      have h1 : (t.length : ℚ) * (t.map (fun x => x ^ 2)).sum - t.sum ^ 2 = 0 := by
        linarith [sq_sum_le_card_mul t, pairSq_sum_nonneg a t, key]
      have h2 : (t.map (fun x => (a - x) ^ 2)).sum = 0 := by
        linarith [sq_sum_le_card_mul t, pairSq_sum_nonneg a t, key]
      have ht := ih.mp (by linarith)
      have ha := (pairSq_sum_eq_zero_iff a t).mp h2
      have ha' : ∀ x ∈ a :: t, a = x := by
        intro x hx
        rcases List.mem_cons.mp hx with rfl | hx
        · rfl
        · exact ha x hx
      intro x hx y hy
      rw [← ha' x hx, ← ha' y hy]
    · intro h
      have ha : ∀ x ∈ t, a = x := fun x hx =>
        h a (List.mem_cons_self a t) x (List.mem_cons_of_mem a hx)
      have ht : ∀ x ∈ t, ∀ y ∈ t, x = y := fun x hx y hy =>
        h x (List.mem_cons_of_mem a hx) y (List.mem_cons_of_mem a hy)
      have h2 : (t.map (fun x => (a - x) ^ 2)).sum = 0 :=
        (pairSq_sum_eq_zero_iff a t).mpr ha
      have h1 : t.sum ^ 2 = t.length * (t.map (fun x => x ^ 2)).sum := ih.mpr ht
      linarith [key]

/-- C9 (amended): for non-negative weights not all zero, 0 < n_eff ≤ n,
with equality exactly when all the weights (zeros included) are equal. -/
theorem C9_neff_le_n :
    ∀ g : List Row, (∀ r ∈ g, 0 ≤ r.llcpwt) → (∃ r ∈ g, r.llcpwt ≠ 0) →
      0 < kishNeff g ∧ kishNeff g ≤ g.length ∧
      (kishNeff g = g.length ↔ ∀ r ∈ g, ∀ r' ∈ g, r.llcpwt = r'.llcpwt) := by
  intro g hw ⟨r₀, hr₀, hne⟩
  have hw0 : 0 < r₀.llcpwt := lt_of_le_of_ne (hw r₀ hr₀) (Ne.symm hne)
  have htw : 0 < totalWeight g := by
    have hnn : ∀ x ∈ g.map (fun r => r.llcpwt), 0 ≤ x := by
      intro x hx
      obtain ⟨r, hr, rfl⟩ := List.mem_map.mp hx
      exact hw r hr
    have := List.single_le_sum hnn _ (List.mem_map_of_mem (fun r => r.llcpwt) hr₀)
    exact lt_of_lt_of_le hw0 this
  have hsq : 0 < sumWeightsSq g := by
    have hnn : ∀ x ∈ g.map (fun r => r.llcpwt ^ 2), 0 ≤ x := by
      intro x hx
      obtain ⟨r, _, rfl⟩ := List.mem_map.mp hx
      positivity
    have := List.single_le_sum hnn _
      (List.mem_map_of_mem (fun r => r.llcpwt ^ 2) hr₀)
    calc (0 : ℚ) < r₀.llcpwt ^ 2 := by positivity
    _ ≤ sumWeightsSq g := this
  have hkeq : kishNeff g = totalWeight g ^ 2 / sumWeightsSq g := by
    unfold kishNeff
    rw [if_neg hsq.ne']
  have hsum : (g.map (fun r => r.llcpwt)).sum = totalWeight g := rfl
  have hsqsum : ((g.map (fun r => r.llcpwt)).map (fun x => x ^ 2)).sum = sumWeightsSq g := by
    rw [List.map_map]
    rfl
  have hcs : totalWeight g ^ 2 ≤ (g.length : ℚ) * sumWeightsSq g := by
    have := sq_sum_le_card_mul (g.map (fun r => r.llcpwt))
    rwa [hsum, hsqsum, List.length_map] at this
  refine ⟨hkeq ▸ div_pos (pow_pos htw 2) hsq, ?_, ?_⟩
  · rw [hkeq, div_le_iff₀ hsq]
    exact hcs
  · rw [hkeq, div_eq_iff hsq.ne']
    have hiff := sq_sum_eq_card_iff (g.map (fun r => r.llcpwt))
    rw [hsum, hsqsum, List.length_map] at hiff
    rw [hiff]
    constructor
    · intro h r hr r' hr'
      exact h _ (List.mem_map_of_mem _ hr) _ (List.mem_map_of_mem _ hr')
    · intro h x hx y hy
      obtain ⟨r, hr, rfl⟩ := List.mem_map.mp hx
      obtain ⟨r', hr', rfl⟩ := List.mem_map.mp hy
      exact h r hr r' hr'

/-- C9 counterexample: weights (1, 1, 0) are non-negative, not all zero,
and their non-zero values are all equal, yet n_eff = 2 < 3 = n: the
equality condition must count zero weights too. -/
theorem C9_counterexample :
    (∀ r ∈ ([⟨1, 0⟩, ⟨1, 0⟩, ⟨0, 0⟩] : List Row), 0 ≤ r.llcpwt) ∧
    (∃ r ∈ ([⟨1, 0⟩, ⟨1, 0⟩, ⟨0, 0⟩] : List Row), r.llcpwt ≠ 0) ∧
    (∀ r ∈ ([⟨1, 0⟩, ⟨1, 0⟩, ⟨0, 0⟩] : List Row),
      ∀ r' ∈ ([⟨1, 0⟩, ⟨1, 0⟩, ⟨0, 0⟩] : List Row),
        r.llcpwt ≠ 0 → r'.llcpwt ≠ 0 → r.llcpwt = r'.llcpwt) ∧
    kishNeff [⟨1, 0⟩, ⟨1, 0⟩, ⟨0, 0⟩] = 2 ∧
    (([⟨1, 0⟩, ⟨1, 0⟩, ⟨0, 0⟩] : List Row).length : ℚ) = 3 ∧
    kishNeff [⟨1, 0⟩, ⟨1, 0⟩, ⟨0, 0⟩] ≠
      (([⟨1, 0⟩, ⟨1, 0⟩, ⟨0, 0⟩] : List Row).length : ℚ) := by
  refine ⟨?_, ⟨⟨1, 0⟩, by simp, by norm_num⟩, ?_, ?_, by simp, ?_⟩
  · intro r hr
    fin_cases hr <;> norm_num
  · intro r hr r' hr'
    fin_cases hr <;> fin_cases hr' <;> norm_num
  · norm_num [kishNeff, sumWeightsSq, totalWeight]
  · rw [show kishNeff [⟨1, 0⟩, ⟨1, 0⟩, ⟨0, 0⟩] = 2 by
      norm_num [kishNeff, sumWeightsSq, totalWeight]]
    norm_num

/-- C9 witness at two equal unit weights (n_eff = n = 2). -/
theorem C9_neff_le_n_witness :
    0 < kishNeff [⟨1, 1⟩, ⟨1, 0⟩] ∧
    kishNeff [⟨1, 1⟩, ⟨1, 0⟩] ≤ (([⟨1, 1⟩, ⟨1, 0⟩] : List Row).length : ℚ) :=
  ⟨(C9_neff_le_n [⟨1, 1⟩, ⟨1, 0⟩] (by intro r hr; fin_cases hr <;> norm_num)
      ⟨⟨1, 1⟩, by simp, by norm_num⟩).1,
   (C9_neff_le_n [⟨1, 1⟩, ⟨1, 0⟩] (by intro r hr; fin_cases hr <;> norm_num)
      ⟨⟨1, 1⟩, by simp, by norm_num⟩).2.1⟩
